import Mathlib

/-!
Shallow embedding of the schedule-extraction engine of `src/main.go`
(`parseMastersSchedule` and its collaborators).

Conventions:
* Go strings are modelled as `String` / `List Char` (one `Char` per rune).
* The real-world clock read by `time.Now()` is passed explicitly as a
  `GoDate` reference date, as required by the specification's design
  note on deterministic testing (§9).
* Machine integers are modelled as `Int`; `strconv.Atoi` clamps to the
  64-bit range exactly as Go's `ParseInt` does on range errors.
* Regular-expression matching (`regexp.FindStringSubmatch` with Go's
  leftmost-first semantics) is modelled by direct scanning functions,
  one per regexp constant of the source; each is annotated with the
  pattern it implements.
-/

/-- Reference current date standing for `time.Now()`:
`Year`/`Month`/`Day` are the values of `time.Now().Year()`,
`time.Now().Month()` (as an integer) and `time.Now().Day()`. -/
structure GoDate where
  Year : Int
  Month : Int
  Day : Int
deriving DecidableEq

/-- `duty` record of `src/main.go` (fields `Month`, `Day`, `Date`). -/
structure Duty where
  Month : String
  Day : Int
  Date : String
deriving DecidableEq

/-- `master` record of `src/main.go`.  The field `duty` is unexported in
the Go source (lower-case), which matters for JSON encoding. -/
structure Master where
  Current : Bool
  Today : Duty
  Name : String
  Email : String
  Slack : String
  SlackShort : String
  Colour : String
  duty : List Duty
deriving DecidableEq

/-- The zero value of `duty` in Go. -/
def emptyDuty : Duty := { Month := "", Day := 0, Date := "" }

/-- The zero value of `master` in Go (`&master\x7b\x7d`). -/
def emptyMaster : Master :=
  { Current := false, Today := emptyDuty, Name := "", Email := "",
    Slack := "", SlackShort := "", Colour := "", duty := [] }

/-- White-space test used by `strings.TrimSpace` (`unicode.IsSpace`),
restricted to the White_Space code points. -/
def goIsSpace (c : Char) : Bool :=
  c = ' ' ∨ c = '\t' ∨ c = '\n' ∨ c = '\x0b' ∨ c = '\x0c' ∨ c = '\r' ∨
  c.toNat = 0x85 ∨ c.toNat = 0xA0 ∨ c.toNat = 0x1680 ∨
  (0x2000 ≤ c.toNat ∧ c.toNat ≤ 0x200A) ∨ c.toNat = 0x2028 ∨
  c.toNat = 0x2029 ∨ c.toNat = 0x202F ∨ c.toNat = 0x205F ∨ c.toNat = 0x3000

/-- The class `\s` of Go's regexp package: `[\t\n\f\r ]` (ASCII only,
note the absence of vertical tab). -/
def goRegexSpace (c : Char) : Bool :=
  c = ' ' ∨ c = '\t' ∨ c = '\n' ∨ c = '\x0c' ∨ c = '\r'

/-- The class `\w` of Go's regexp package: `[0-9A-Za-z_]`. -/
def goWordChar (c : Char) : Bool :=
  c.isAlphanum ∨ c = '_'

/-- The class `[\w.]` used in the e-mail pattern. -/
def emailChar (c : Char) : Bool :=
  goWordChar c ∨ c = '.'

/-- `strings.TrimSpace` on rune lists. -/
def goTrimSpace (l : List Char) : List Char :=
  ((l.dropWhile goIsSpace).reverse.dropWhile goIsSpace).reverse

/-- Effect of `reTagDelimiter.ReplaceAllString(body, "$1\n$2")` with
`reTagDelimiter = (>)|(<)`: every `>` gets a line break appended and
every `<` gets a line break prepended. -/
def tagSplitChars : List Char → List Char
  | [] => []
  | c :: rest =>
    if c = '>' then c :: '\n' :: tagSplitChars rest
    else if c = '<' then '\n' :: c :: tagSplitChars rest
    else c :: tagSplitChars rest

/-- Transform written from the specification's words (§4.1): insert a
line break immediately before every `<` character and immediately after
every `>` character. -/
def specInsertBreaks : List Char → List Char
  | [] => []
  | c :: rest =>
    if c = '<' then '\n' :: c :: specInsertBreaks rest
    else if c = '>' then c :: '\n' :: specInsertBreaks rest
    else c :: specInsertBreaks rest

/-- `strings.Split(s, "\n")` on rune lists (empty segments preserved,
the empty input yields one empty segment). -/
def splitLines : List Char → List (List Char)
  | [] => [[]]
  | c :: rest =>
    if c = '\n' then [] :: splitLines rest
    else
      match splitLines rest with
      | [] => [[c]]
      | l :: ls => (c :: l) :: ls

/-- The tokenizer/line-splitter of `parseMastersSchedule`: regexp
replacement followed by `strings.Split` on line breaks. -/
def goSplitBody (page : String) : List (List Char) :=
  splitLines (tagSplitChars page.toList)

/-- Tokenizer as described by the specification's words (§4.1). -/
def specSplitBody (page : String) : List (List Char) :=
  splitLines (specInsertBreaks page.toList)

/-- `strings.Contains(line, sub)` on rune lists. -/
def goContains (line : List Char) (sub : String) : Bool :=
  line.tails.any (fun t => sub.toList.isPrefixOf t)

/-- `strconv.Atoi`: optional sign followed by decimal digits; any other
shape is a syntax error and, with the error ignored as in the source,
yields `0`.  Out-of-range values are clamped to the 64-bit int range
(Go returns the clamped value together with `ErrRange`). -/
def goAtoi (s : String) : Int :=
  let l := s.toList
  let signed : Bool × List Char :=
    match l with
    | '-' :: rest => (true, rest)
    | '+' :: rest => (false, rest)
    | _ => (false, l)
  let ds := signed.2
  if ds = [] ∨ ds.any (fun c => ¬ c.isDigit) then 0
  else
    let n : Nat := ds.foldl (fun a c => a * 10 + (c.toNat - 48)) 0
    let v : Int := if signed.1 then -(n : Int) else (n : Int)
    if v < -(2 ^ 63 : Int) then -(2 ^ 63 : Int)
    else if v > (2 ^ 63 : Int) - 1 then (2 ^ 63 : Int) - 1
    else v

/-- `strings.ToLower`, modelled on the character ranges that can occur
here: ASCII letters and the Cyrillic range used by the month table. -/
def goToLower (s : String) : String :=
  String.mk (s.toList.map (fun c =>
    if 'A' ≤ c ∧ c ≤ 'Z' then Char.ofNat (c.toNat + 32)
    else if 0x410 ≤ c.toNat ∧ c.toNat ≤ 0x42F then Char.ofNat (c.toNat + 0x20)
    else if c.toNat = 0x401 then Char.ofNat 0x451
    else c))

/-- The `months` map of `parseMastersSchedule`; a missing key yields the
zero value `time.Month(0)`, exactly as a Go map read does. -/
def monthsLookup (s : String) : Int :=
  if s = "январь" then 1
  else if s = "февраль" then 2
  else if s = "март" then 3
  else if s = "апрель" then 4
  else if s = "май" then 5
  else if s = "июнь" then 6
  else if s = "июль" then 7
  else if s = "август" then 8
  else if s = "сентябрь" then 9
  else if s = "октябрь" then 10
  else if s = "ноябрь" then 11
  else if s = "декабрь" then 12
  else 0

/-- Alternative `rgb\([^)]+\)` of `reContactName`, tried at one
position: `rgb(`, then a non-empty run of non-`)` characters, then `)`. -/
def matchRgbAt : List Char → Option (List Char)
  | 'r' :: 'g' :: 'b' :: '(' :: rest =>
    let body := rest.takeWhile (fun c => c ≠ ')')
    if body = [] then none
    else if body.length < rest.length then
      some ([ 'r', 'g', 'b', '(' ] ++ body ++ [ ')' ])
    else none
  | _ => none

/-- Alternative `highlight-\w+` of `reContactName`, tried at one
position. -/
def matchHighlightAt (l : List Char) : Option (List Char) :=
  if "highlight-".toList.isPrefixOf l then
    let w := (l.drop 10).takeWhile goWordChar
    if w = [] then none else some ("highlight-".toList ++ w)
  else none

/-- One colour alternative at a fixed position (the `rgb` branch is
tried first, as alternation order prescribes; the two branches start
with different characters, so the order cannot matter). -/
def colourAt (l : List Char) : Option (List Char) :=
  (matchRgbAt l).orElse (fun _ => matchHighlightAt l)

/-- First position at which a colour alternative matches (the lazy
`.*?` selects the earliest possible occurrence). -/
def findColourIn : List Char → Option (List Char)
  | [] => none
  | c :: rest => (colourAt (c :: rest)).orElse (fun _ => findColourIn rest)

/-- Suffix after the first occurrence of `<td` (the match of
`reContactName` starts at the leftmost `<td` that is followed by a
colour; if any `<td` is followed by a colour then so is the first one,
so scanning from the first occurrence is exact). -/
def afterTd : List Char → Option (List Char)
  | '<' :: 't' :: 'd' :: rest => some rest
  | _ :: rest => afterTd rest
  | [] => none

/-- `reContactName.FindStringSubmatch(line)`: capture group 1 of
`<td.*?(rgb\([^)]+\)|highlight-\w+)` (lines produced by the splitter
contain no line break, so `.` never has to skip one). -/
def findColour (line : List Char) : Option (List Char) :=
  (afterTd line).bind findColourIn

/-- Part of `reContactEmail` matching `[\w.]+@\S+`: scans left to
right; `run` is the reversed run of `[\w.]` characters read so far.  At
an `@` with a non-empty run and at least one following non-space the
greedy match is exactly run ++ `@` ++ maximal non-space tail. -/
def findEmailAux : List Char → List Char → Option (List Char)
  | run, '@' :: rest =>
    if run = [] then findEmailAux [] rest
    else
      let tail := rest.takeWhile (fun c => ¬ goRegexSpace c)
      if tail = [] then findEmailAux [] rest
      else some (run.reverse ++ '@' :: tail)
  | run, c :: rest =>
    if emailChar c then findEmailAux (c :: run) rest
    else findEmailAux [] rest
  | _, [] => none

/-- `reContactEmail.FindStringSubmatch(line)` (whole match). -/
def findEmail (line : List Char) : Option (List Char) :=
  findEmailAux [] line

/-- Suffix after the first occurrence of `https://`. -/
def afterHttps : List Char → Option (List Char)
  | 'h' :: 't' :: 't' :: 'p' :: 's' :: ':' :: '/' :: '/' :: rest => some rest
  | _ :: rest => afterHttps rest
  | [] => none

/-- Tail `slack.com/messages/([^"]+)` of `reContactSlack` tried at one
position (the `.` of `slack.com` is an unescaped wildcard in the Go
pattern); returns the capture group. -/
def slackAt : List Char → Option (List Char)
  | 's' :: 'l' :: 'a' :: 'c' :: 'k' :: _ :: 'c' :: 'o' :: 'm' :: '/' ::
      'm' :: 'e' :: 's' :: 's' :: 'a' :: 'g' :: 'e' :: 's' :: '/' :: rest =>
    let cap := rest.takeWhile (fun c => c ≠ '"')
    if cap = [] then none else some cap
  | _ => none

/-- Last position (0-based) at which `slackAt` matches, together with
its capture: the greedy `.*` of `reContactSlack` commits to the last
occurrence. -/
def lastSlackPos : List Char → Nat → Option (Nat × List Char)
  | [], _ => none
  | c :: rest, i =>
    match lastSlackPos rest (i + 1) with
    | some r => some r
    | none => (slackAt (c :: rest)).map (fun cap => (i, cap))

/-- `reContactSlack.FindStringSubmatch(line)` for the pattern
`https://.*slack.com/messages/([^"]+)`: returns (whole match, capture
group 1), i.e. the values stored into `Slack` and `SlackShort`. -/
def findSlack (line : List Char) : Option (List Char × List Char) :=
  match afterHttps line with
  | none => none
  | some rest =>
    match lastSlackPos rest 0 with
    | none => none
    | some (i, cap) =>
      some ("https://".toList ++ rest.take (i + 19 + cap.length), cap)

/-- `reContactMonth` pattern `(\S+), (\d+)` tried at one position: the
greedy `\S+` forces the comma to be the last character of the maximal
non-space run, followed by a literal space and a digit; the returned
value is capture group 1. -/
def monthAt (l : List Char) : Option (List Char) :=
  let r := l.takeWhile (fun c => ¬ goRegexSpace c)
  match r.reverse with
  | ',' :: w :: ws =>
    match l.drop r.length with
    | ' ' :: d :: _ => if d.isDigit then some (w :: ws).reverse else none
    | _ => none
  | _ => none

/-- `reContactMonth.FindStringSubmatch(line)`: capture group 1 at the
leftmost matching position. -/
def findMonth : List Char → Option (List Char)
  | [] => none
  | c :: rest => (monthAt (c :: rest)).orElse (fun _ => findMonth rest)

/-- Days since 1970-01-01 of a proleptic Gregorian date with month in
1..12 and arbitrary day offset; standard civil-day conversion, which is
what `time.Date` computes internally for the date components. -/
def daysFromCivil (y m d : Int) : Int :=
  let y2 := y - (if m ≤ 2 then 1 else 0)
  let era := y2 / 400
  let yoe := y2 - era * 400
  let mp := m + (if 2 < m then -3 else 9)
  let doy := (153 * mp + 2) / 5 + d - 1
  let doe := yoe * 365 + yoe / 4 - yoe / 100 + doy
  era * 146097 + doe - 719468

/-- Inner expression of the year-of-era computation of the civil-day
conversion. -/
def hinnantF (n : Int) : Int :=
  n - n / 1460 + n / 36524 - n / 146096

/-- Era (400-year cycle) of a day count shifted to the civil epoch. -/
def cfdEra (z : Int) : Int :=
  (z + 719468) / 146097

/-- Day-of-era of a day count. -/
def cfdDoe (z : Int) : Int :=
  z + 719468 - cfdEra z * 146097

/-- Year-of-era of a day count. -/
def cfdYoe (z : Int) : Int :=
  hinnantF (cfdDoe z) / 365

/-- Day-of-year (March-based) of a day count. -/
def cfdDoy (z : Int) : Int :=
  cfdDoe z - (365 * cfdYoe z + cfdYoe z / 4 - cfdYoe z / 100)

/-- March-based month index (0..11) of a day count. -/
def cfdMp (z : Int) : Int :=
  (5 * cfdDoy z + 2) / 153

/-- Day of month of a day count. -/
def cfdD (z : Int) : Int :=
  cfdDoy z - (153 * cfdMp z + 2) / 5 + 1

/-- Calendar month (1..12) of a day count. -/
def cfdM (z : Int) : Int :=
  cfdMp z + (if cfdMp z < 10 then 3 else -9)

/-- Proleptic Gregorian date of a count of days since 1970-01-01;
standard civil-day conversion, which is what `Time.Format` computes for
the `2006-01-02` layout after `time.Date` normalised the input. -/
def civilFromDays (z : Int) : Int × Int × Int :=
  (cfdYoe z + cfdEra z * 400 + (if cfdM z ≤ 2 then 1 else 0), cfdM z, cfdD z)

/-- Month normalisation of `time.Date` (`norm(year, int(month)-1, 12)`,
floor semantics): returns the adjusted year and a month in 1..12. -/
def goNormYM (y mo : Int) : Int × Int :=
  (y + (mo - 1) / 12, (mo - 1) % 12 + 1)

/-- Normalised (year, month, day) produced by
`time.Date(y, time.Month(mo), d, 0, 0, 0, 0, time.Local)`. -/
def goTimeDate (y mo d : Int) : Int × Int × Int :=
  let ym := goNormYM y mo
  civilFromDays (daysFromCivil ym.1 ym.2 d)

/-- Zero-padded two-digit rendering used by layout `01` and `02`. -/
def pad2 (n : Int) : String :=
  if 0 ≤ n ∧ n < 10 then "0" ++ toString n else toString n

/-- Zero-padded four-digit rendering used by layout `2006`. -/
def pad4 (n : Int) : String :=
  if 0 ≤ n ∧ n < 10 then "000" ++ toString n
  else if 0 ≤ n ∧ n < 100 then "00" ++ toString n
  else if 0 ≤ n ∧ n < 1000 then "0" ++ toString n
  else toString n

/-- `time.Date(y, time.Month(mo), d, ...).Format("2006-01-02")`. -/
def goTimeDateString (y mo d : Int) : String :=
  let c := goTimeDate y mo d
  pad4 c.1 ++ "-" ++ pad2 c.2.1 ++ "-" ++ pad2 c.2.2

/-- Number of days of month `m` (1..12) of Gregorian year `y`. -/
def goDaysInMonth (y m : Int) : Int :=
  if m = 2 then
    (if y % 4 = 0 ∧ (y % 100 ≠ 0 ∨ y % 400 = 0)
     then 29 else 28)
  else if m = 4 ∨ m = 6 ∨ m = 9 ∨ m = 11 then 30
  else 31

/-- Parser states of `parseMastersSchedule` (the declared
`parserStateBegin` is never used; the machine starts in Contacts). -/
inductive PState
  | contacts
  | pname
  | contactInfo
  | schedule
  | day
deriving DecidableEq

/-- Mutable state of one `parseMastersSchedule` invocation: the current
parser state, the roster built so far, the stand-alone record that the
`master` pointer initially references, the index the pointer was last
redirected to inside the roster (`none` while it still references the
stand-alone record), and the active month header text. -/
structure Machine where
  st : PState
  masters : List Master
  scratch : Master
  idx : Option Nat
  month : String
deriving DecidableEq

/-- Dereference of the `master` pointer. -/
def getCurMaster (m : Machine) : Master :=
  match m.idx with
  | none => m.scratch
  | some i => m.masters.getD i emptyMaster

/-- Mutation through the `master` pointer. -/
def setCurMaster (m : Machine) (f : Master → Master) : Machine :=
  match m.idx with
  | none => { m with scratch := f m.scratch }
  | some i => { m with masters := m.masters.set i (f (m.masters.getD i emptyMaster)) }

/-- The Schedule-state roster scan, literally
`for i, possibleMaster := range masters`: every entry is tested and
each hit overwrites the previous one, so the returned index is the last
matching one (the loop has no break statement). -/
def goScheduleSelectAux : List Master → List Char → Nat → Option Nat → Option Nat
  | [], _, _, acc => acc
  | ma :: rest, line, i, acc =>
    goScheduleSelectAux rest line (i + 1)
      (if goContains line ma.Colour then some i else acc)

/-- Index of the roster entry that `parserStateSchedule` redirects the
`master` pointer to for a given line, if any. -/
def goScheduleSelect (ms : List Master) (line : List Char) : Option Nat :=
  goScheduleSelectAux ms line 0 none

/-- The duty record built in `parserStateDay` from the active month and
the day cell line. -/
def mkDuty (now : GoDate) (month : String) (day : Int) : Duty :=
  { Month := month, Day := day,
    Date := goTimeDateString now.Year (monthsLookup (goToLower month)) day }

/-- One iteration of the line loop of `parseMastersSchedule`: trims the
line and runs the switch on the current parser state.  Each branch
follows the Go source statement by statement; in the Day branch the two
consecutive mutations through the `master` pointer (conditional
`Current`/`Today` update, then the duty append) are composed into one
`setCurMaster`. -/
def goStep (now : GoDate) (m : Machine) (rawLine : List Char) : Machine :=
  let line := goTrimSpace rawLine
  match m.st with
  | .contacts =>
    let m1 := if line = "</table>".toList then { m with st := .schedule } else m
    match findColour line with
    | some colour =>
      let m2 := setCurMaster m1 (fun ma => { ma with Colour := String.mk colour })
      { m2 with st := .pname }
    | none => m1
  | .pname =>
    if line = [] then m
    else if line.all (fun c => c ≠ '<' ∧ c ≠ '>') then
      let m1 := setCurMaster m (fun ma =>
        { ma with Current := false, Name := String.mk line })
      { m1 with st := .contactInfo }
    else m
  | .contactInfo =>
    let m1 :=
      if line = "</tr>".toList then
        { m with st := .contacts, masters := m.masters ++ [getCurMaster m] }
      else m
    let m2 :=
      match findEmail line with
      | some e => setCurMaster m1 (fun ma => { ma with Email := String.mk e })
      | none => m1
    match findSlack line with
    | some fs =>
      setCurMaster m2 (fun ma =>
        { ma with Slack := String.mk fs.1, SlackShort := String.mk fs.2 })
    | none => m2
  | .schedule =>
    let m1 :=
      match findMonth line with
      | some mo => { m with month := String.mk mo }
      | none => m
    match goScheduleSelect m1.masters line with
    | some i => { m1 with idx := some i, st := .day }
    | none => m1
  | .day =>
    let day := goAtoi (String.mk line)
    let td := mkDuty now m.month day
    let isNow : Bool :=
      now.Day = day ∧ monthsLookup (goToLower m.month) = now.Month
    let m1 := setCurMaster m (fun ma =>
      let ma1 := if isNow then { ma with Current := true, Today := td } else ma
      { ma1 with duty := ma1.duty ++ [td] })
    { m1 with st := .schedule }

/-- Initial machine of one invocation. -/
def initMachine : Machine :=
  { st := .contacts, masters := [], scratch := emptyMaster, idx := none, month := "" }

/-- `parseMastersSchedule(confluencePage)`: splits the page at tag
delimiters, runs the state machine over every line and returns the
roster together with the error value, which the source returns as
literal `nil` (modelled as `none`).  The reference date `now` stands
for the ambient `time.Now()` calls, per the specification's §9. -/
def parseMastersSchedule (now : GoDate) (page : String) : List Master × Option String :=
  (((goSplitBody page).foldl (goStep now) initMachine).masters, none)

/-- JSON string escaping of `encoding/json` for the characters relevant
here: quote and backslash get a backslash, `<`, `>`, `&` are HTML-escaped,
newline/carriage-return/tab use short escapes, other control characters
use `\u00XX`. -/
def jsonEscapeChar (c : Char) : List Char :=
  if c = '"' then [ '\\', '"' ]
  else if c = '\\' then [ '\\', '\\' ]
  else if c = '<' then "\\u003c".toList
  else if c = '>' then "\\u003e".toList
  else if c = '&' then "\\u0026".toList
  else if c = '\n' then [ '\\', 'n' ]
  else if c = '\r' then [ '\\', 'r' ]
  else if c = '\t' then [ '\\', 't' ]
  else if c.toNat < 0x20 then
    "\\u00".toList ++ [ (Nat.digitChar (c.toNat / 16)), (Nat.digitChar (c.toNat % 16)) ]
  else [ c ]

/-- JSON rendering of a Go string value. -/
def jsonString (s : String) : String :=
  String.mk ([ '"' ] ++ (s.toList.flatMap jsonEscapeChar) ++ [ '"' ])

/-- `json.Marshal` of a `duty` value: exported fields in declaration
order. -/
def dutyJSON (d : Duty) : String :=
  "\x7b" ++ "\"Month\":" ++ jsonString d.Month ++ "," ++
  "\"Day\":" ++ toString d.Day ++ "," ++
  "\"Date\":" ++ jsonString d.Date ++ "\x7d"

/-- `json.Marshal` of a `master` value: exported fields in declaration
order; the unexported field `duty` is skipped by `encoding/json`. -/
def masterJSON (ma : Master) : String :=
  "\x7b" ++ "\"Current\":" ++ (if ma.Current then "true" else "false") ++ "," ++
  "\"Today\":" ++ dutyJSON ma.Today ++ "," ++
  "\"Name\":" ++ jsonString ma.Name ++ "," ++
  "\"Email\":" ++ jsonString ma.Email ++ "," ++
  "\"Slack\":" ++ jsonString ma.Slack ++ "," ++
  "\"SlackShort\":" ++ jsonString ma.SlackShort ++ "," ++
  "\"Colour\":" ++ jsonString ma.Colour ++ "\x7d"


/-- The index the `master` pointer was redirected to, when any, is in
range; holds for every machine state reachable from `initMachine` and
expresses that `&masters[i]` in the Go source is a valid reference. -/
def curIdxOk (m : Machine) : Prop :=
  match m.idx with
  | none => True
  | some i => i < m.masters.length

/-- Invariant behind the `Current` flag (one roster entry): whenever
the flag is set, the `Today` record matches the reference date and was
also appended to the entry's duty list. -/
def PCur (now : GoDate) (ma : Master) : Prop :=
  ma.Current = true →
    (ma.Today.Day = now.Day ∧ monthsLookup (goToLower ma.Today.Month) = now.Month ∧
      ma.Today ∈ ma.duty)

/-- `PCur` for the stand-alone record and every roster entry. -/
def AllCur (now : GoDate) (m : Machine) : Prop :=
  PCur now m.scratch ∧ ∀ ma ∈ m.masters, PCur now ma


/-! Helper lemmas about the civil-day conversion: `civilFromDays` is a
left inverse of `daysFromCivil` on valid Gregorian dates.  The proof
follows the classical argument: the year-of-era expression `hinnantF`
is monotone, its value at the first and last day of each year of an era
is checked for the 400 years of an era, and the remaining component
recoveries are linear arithmetic. -/


theorem hinnantF_step (n : Int) : hinnantF n ≤ hinnantF (n + 1) := by
  have hd : (36524 : Int) ∣ 146096 := ⟨4, by norm_num⟩
  have h1 := Int.emod_emod_of_dvd (n + 1) hd
  simp only [hinnantF]
  omega

theorem hinnantF_mono {a b : Int} (h : a ≤ b) : hinnantF a ≤ hinnantF b :=
  @Int.le_induction (fun x => hinnantF a ≤ hinnantF x) a (le_refl _)
    (fun n _ ih => le_trans ih (hinnantF_step n)) b h

set_option maxRecDepth 4000 in
theorem yoeBounds : ∀ k : Nat, k < 400 →
    365 * (k : Int) ≤
      hinnantF (365 * (k : Int) + (k : Int) / 4 - (k : Int) / 100) ∧
    hinnantF (365 * (k : Int) + (k : Int) / 4 - (k : Int) / 100 + 364 +
        (if ((k : Int) + 1) % 4 = 0 ∧
            (((k : Int) + 1) % 100 ≠ 0 ∨ ((k : Int) + 1) % 400 = 0)
         then 1 else 0)) ≤
      365 * (k : Int) + 364 := by
  decide

theorem yoe_recover (yoe doy : Int) (h0 : 0 ≤ yoe) (h1 : yoe ≤ 399) (h2 : 0 ≤ doy)
    (h3 : doy ≤ 364 ∨ (doy = 365 ∧ (yoe + 1) % 4 = 0 ∧
      ((yoe + 1) % 100 ≠ 0 ∨ (yoe + 1) % 400 = 0))) :
    hinnantF (yoe * 365 + yoe / 4 - yoe / 100 + doy) / 365 = yoe := by
  have hk := yoeBounds yoe.toNat (by omega)
  have hcast : ((yoe.toNat : Int)) = yoe := Int.toNat_of_nonneg h0
  rw [hcast] at hk
  have hlo := hk.1
  have hhi := hk.2
  have hmono1 : hinnantF (365 * yoe + yoe / 4 - yoe / 100) ≤
      hinnantF (yoe * 365 + yoe / 4 - yoe / 100 + doy) := by
    apply hinnantF_mono
    omega
  have hmono2 : hinnantF (yoe * 365 + yoe / 4 - yoe / 100 + doy) ≤
      hinnantF (365 * yoe + yoe / 4 - yoe / 100 + 364 +
        (if (yoe + 1) % 4 = 0 ∧ ((yoe + 1) % 100 ≠ 0 ∨ (yoe + 1) % 400 = 0)
         then 1 else 0)) := by
    apply hinnantF_mono
    split <;> omega
  have hA : 365 * yoe ≤ hinnantF (yoe * 365 + yoe / 4 - yoe / 100 + doy) :=
    le_trans hlo hmono1
  have hB : hinnantF (yoe * 365 + yoe / 4 - yoe / 100 + doy) ≤ 365 * yoe + 364 :=
    le_trans hmono2 hhi
  omega

theorem roundtrip_core (era yoe mp d c : Int)
    (hyoe0 : 0 ≤ yoe) (hyoe1 : yoe ≤ 399)
    (hmp0 : 0 ≤ mp) (hmp1 : mp ≤ 11)
    (hc : c = (153 * mp + 2) / 5)
    (hd : 1 ≤ d)
    (hdm : d ≤ (153 * (mp + 1) + 2) / 5 - c)
    (hdoy : c + d - 1 ≤ 364 ∨ (c + d - 1 = 365 ∧ (yoe + 1) % 4 = 0 ∧
      ((yoe + 1) % 100 ≠ 0 ∨ (yoe + 1) % 400 = 0))) :
    civilFromDays (era * 146097 + (yoe * 365 + yoe / 4 - yoe / 100 + (c + d - 1)) - 719468)
      = (yoe + era * 400 + (if 10 ≤ mp then 1 else 0), mp + (if mp < 10 then 3 else -9), d) := by
  have hrec := yoe_recover yoe (c + d - 1) hyoe0 hyoe1 (by omega) hdoy
  set z := era * 146097 + (yoe * 365 + yoe / 4 - yoe / 100 + (c + d - 1)) - 719468 with hz
  have h1 : cfdEra z = era := by
    simp only [cfdEra, hz]
    omega
  have h2 : cfdDoe z = yoe * 365 + yoe / 4 - yoe / 100 + (c + d - 1) := by
    simp only [cfdDoe, h1, hz]
    ring
  have h3 : cfdYoe z = yoe := by
    simp only [cfdYoe, h2]
    exact hrec
  have h4 : cfdDoy z = c + d - 1 := by
    simp only [cfdDoy, h2, h3]
    ring
  have h5 : cfdMp z = mp := by
    simp only [cfdMp, h4]
    omega
  have h6 : cfdD z = d := by
    simp only [cfdD, h4, h5]
    omega
  have h7 : cfdM z = mp + (if mp < 10 then 3 else -9) := by
    simp only [cfdM, h5]
  simp only [civilFromDays, h1, h3, h6, h7, Prod.mk.injEq]
  split_ifs <;> simp_all <;> omega

set_option maxHeartbeats 1000000 in
theorem civil_roundtrip (y m d : Int) (hm1 : 1 ≤ m) (hm2 : m ≤ 12) (hd1 : 1 ≤ d)
    (hd2 : d ≤ goDaysInMonth y m) :
    civilFromDays (daysFromCivil y m d) = (y, m, d) := by
  interval_cases m
  · simp only [goDaysInMonth] at hd2
    norm_num at hd2
    have harg : daysFromCivil y 1 d =
        (y - 1) / 400 * 146097 + ((y - 1 - (y - 1) / 400 * 400) * 365 + (y - 1 - (y - 1) / 400 * 400) / 4 -
          (y - 1 - (y - 1) / 400 * 400) / 100 + (306 + d - 1)) - 719468 := by
      simp only [daysFromCivil]
      split_ifs <;> omega
    all_goals rw [harg, roundtrip_core ((y - 1) / 400) (y - 1 - (y - 1) / 400 * 400) 10 d 306 (by omega) (by omega)
      (by omega) (by omega) (by omega) hd1 (by omega) (by omega)]
    all_goals norm_num [Prod.mk.injEq]
  · simp only [goDaysInMonth] at hd2
    norm_num at hd2
    have harg : daysFromCivil y 2 d =
        (y - 1) / 400 * 146097 + ((y - 1 - (y - 1) / 400 * 400) * 365 + (y - 1 - (y - 1) / 400 * 400) / 4 -
          (y - 1 - (y - 1) / 400 * 400) / 100 + (337 + d - 1)) - 719468 := by
      simp only [daysFromCivil]
      split_ifs <;> omega
    split_ifs at hd2
    all_goals rw [harg, roundtrip_core ((y - 1) / 400) (y - 1 - (y - 1) / 400 * 400) 11 d 337 (by omega) (by omega)
      (by omega) (by omega) (by omega) hd1 (by omega) (by omega)]
    all_goals norm_num [Prod.mk.injEq]
  · simp only [goDaysInMonth] at hd2
    norm_num at hd2
    have harg : daysFromCivil y 3 d =
        y / 400 * 146097 + ((y - y / 400 * 400) * 365 + (y - y / 400 * 400) / 4 -
          (y - y / 400 * 400) / 100 + (0 + d - 1)) - 719468 := by
      simp only [daysFromCivil]
      split_ifs <;> omega
    all_goals rw [harg, roundtrip_core (y / 400) (y - y / 400 * 400) 0 d 0 (by omega) (by omega)
      (by omega) (by omega) (by omega) hd1 (by omega) (by omega)]
    all_goals norm_num [Prod.mk.injEq]
  · simp only [goDaysInMonth] at hd2
    norm_num at hd2
    have harg : daysFromCivil y 4 d =
        y / 400 * 146097 + ((y - y / 400 * 400) * 365 + (y - y / 400 * 400) / 4 -
          (y - y / 400 * 400) / 100 + (31 + d - 1)) - 719468 := by
      simp only [daysFromCivil]
      split_ifs <;> omega
    all_goals rw [harg, roundtrip_core (y / 400) (y - y / 400 * 400) 1 d 31 (by omega) (by omega)
      (by omega) (by omega) (by omega) hd1 (by omega) (by omega)]
    all_goals norm_num [Prod.mk.injEq]
  · simp only [goDaysInMonth] at hd2
    norm_num at hd2
    have harg : daysFromCivil y 5 d =
        y / 400 * 146097 + ((y - y / 400 * 400) * 365 + (y - y / 400 * 400) / 4 -
          (y - y / 400 * 400) / 100 + (61 + d - 1)) - 719468 := by
      simp only [daysFromCivil]
      split_ifs <;> omega
    all_goals rw [harg, roundtrip_core (y / 400) (y - y / 400 * 400) 2 d 61 (by omega) (by omega)
      (by omega) (by omega) (by omega) hd1 (by omega) (by omega)]
    all_goals norm_num [Prod.mk.injEq]
  · simp only [goDaysInMonth] at hd2
    norm_num at hd2
    have harg : daysFromCivil y 6 d =
        y / 400 * 146097 + ((y - y / 400 * 400) * 365 + (y - y / 400 * 400) / 4 -
          (y - y / 400 * 400) / 100 + (92 + d - 1)) - 719468 := by
      simp only [daysFromCivil]
      split_ifs <;> omega
    all_goals rw [harg, roundtrip_core (y / 400) (y - y / 400 * 400) 3 d 92 (by omega) (by omega)
      (by omega) (by omega) (by omega) hd1 (by omega) (by omega)]
    all_goals norm_num [Prod.mk.injEq]
  · simp only [goDaysInMonth] at hd2
    norm_num at hd2
    have harg : daysFromCivil y 7 d =
        y / 400 * 146097 + ((y - y / 400 * 400) * 365 + (y - y / 400 * 400) / 4 -
          (y - y / 400 * 400) / 100 + (122 + d - 1)) - 719468 := by
      simp only [daysFromCivil]
      split_ifs <;> omega
    all_goals rw [harg, roundtrip_core (y / 400) (y - y / 400 * 400) 4 d 122 (by omega) (by omega)
      (by omega) (by omega) (by omega) hd1 (by omega) (by omega)]
    all_goals norm_num [Prod.mk.injEq]
  · simp only [goDaysInMonth] at hd2
    norm_num at hd2
    have harg : daysFromCivil y 8 d =
        y / 400 * 146097 + ((y - y / 400 * 400) * 365 + (y - y / 400 * 400) / 4 -
          (y - y / 400 * 400) / 100 + (153 + d - 1)) - 719468 := by
      simp only [daysFromCivil]
      split_ifs <;> omega
    all_goals rw [harg, roundtrip_core (y / 400) (y - y / 400 * 400) 5 d 153 (by omega) (by omega)
      (by omega) (by omega) (by omega) hd1 (by omega) (by omega)]
    all_goals norm_num [Prod.mk.injEq]
  · simp only [goDaysInMonth] at hd2
    norm_num at hd2
    have harg : daysFromCivil y 9 d =
        y / 400 * 146097 + ((y - y / 400 * 400) * 365 + (y - y / 400 * 400) / 4 -
          (y - y / 400 * 400) / 100 + (184 + d - 1)) - 719468 := by
      simp only [daysFromCivil]
      split_ifs <;> omega
    all_goals rw [harg, roundtrip_core (y / 400) (y - y / 400 * 400) 6 d 184 (by omega) (by omega)
      (by omega) (by omega) (by omega) hd1 (by omega) (by omega)]
    all_goals norm_num [Prod.mk.injEq]
  · simp only [goDaysInMonth] at hd2
    norm_num at hd2
    have harg : daysFromCivil y 10 d =
        y / 400 * 146097 + ((y - y / 400 * 400) * 365 + (y - y / 400 * 400) / 4 -
          (y - y / 400 * 400) / 100 + (214 + d - 1)) - 719468 := by
      simp only [daysFromCivil]
      split_ifs <;> omega
    all_goals rw [harg, roundtrip_core (y / 400) (y - y / 400 * 400) 7 d 214 (by omega) (by omega)
      (by omega) (by omega) (by omega) hd1 (by omega) (by omega)]
    all_goals norm_num [Prod.mk.injEq]
  · simp only [goDaysInMonth] at hd2
    norm_num at hd2
    have harg : daysFromCivil y 11 d =
        y / 400 * 146097 + ((y - y / 400 * 400) * 365 + (y - y / 400 * 400) / 4 -
          (y - y / 400 * 400) / 100 + (245 + d - 1)) - 719468 := by
      simp only [daysFromCivil]
      split_ifs <;> omega
    all_goals rw [harg, roundtrip_core (y / 400) (y - y / 400 * 400) 8 d 245 (by omega) (by omega)
      (by omega) (by omega) (by omega) hd1 (by omega) (by omega)]
    all_goals norm_num [Prod.mk.injEq]
  · simp only [goDaysInMonth] at hd2
    norm_num at hd2
    have harg : daysFromCivil y 12 d =
        y / 400 * 146097 + ((y - y / 400 * 400) * 365 + (y - y / 400 * 400) / 4 -
          (y - y / 400 * 400) / 100 + (275 + d - 1)) - 719468 := by
      simp only [daysFromCivil]
      split_ifs <;> omega
    all_goals rw [harg, roundtrip_core (y / 400) (y - y / 400 * 400) 9 d 275 (by omega) (by omega)
      (by omega) (by omega) (by omega) hd1 (by omega) (by omega)]
    all_goals norm_num [Prod.mk.injEq]


/-! Helper lemmas about the tokenizer/line-splitter. -/

theorem tagSplit_eq_specInsert : ∀ l : List Char, tagSplitChars l = specInsertBreaks l := by
  intro l
  induction l with
  | nil => rfl
  | cons c rest ih =>
    by_cases h1 : c = '>'
    · subst h1
      simp [tagSplitChars, specInsertBreaks, ih]
    · by_cases h2 : c = '<'
      · subst h2
        simp [tagSplitChars, specInsertBreaks, ih]
      · simp [tagSplitChars, specInsertBreaks, h1, h2, ih]

theorem splitLines_ne_nil : ∀ l : List Char, splitLines l ≠ [] := by
  intro l
  induction l with
  | nil => simp [splitLines]
  | cons c rest ih =>
    by_cases h : c = '\n'
    · simp [splitLines, h]
    · simp only [splitLines, h, if_false]
      match hEq : splitLines rest with
      | [] => exact absurd hEq ih
      | x :: xs => simp

theorem splitLines_intercalate : ∀ l : List Char, List.intercalate [ '\n' ] (splitLines l) = l := by
  intro l
  induction l with
  | nil => simp [splitLines, List.intercalate]
  | cons c rest ih =>
    obtain ⟨hd, tl, hEq⟩ : ∃ hd tl, splitLines rest = hd :: tl := by
      match hE : splitLines rest with
      | [] => exact absurd hE (splitLines_ne_nil rest)
      | x :: xs => exact ⟨x, xs, rfl⟩
    by_cases h : c = '\n'
    · subst h
      simp only [splitLines, if_pos rfl]
      rw [hEq] at ih ⊢
      cases tl with
      | nil => simp_all [List.intercalate]
      | cons y ys => simp_all [List.intercalate, List.intersperse]
    · simp only [splitLines, h, if_false, hEq]
      rw [hEq] at ih
      cases tl with
      | nil => simp_all [List.intercalate]
      | cons y ys => simp_all [List.intercalate, List.intersperse]

theorem tagSplit_boundary : ∀ l : List Char,
    (∀ s ∈ splitLines (tagSplitChars l),
      (∀ c ∈ s.drop 1, c ≠ '<') ∧ (∀ c ∈ s.dropLast, c ≠ '>')) ∧
    (∀ c ∈ (splitLines (tagSplitChars l)).headI, c ≠ '<') ∧
    (∀ c ∈ (splitLines (tagSplitChars l)).headI.dropLast, c ≠ '>') := by
  intro l
  induction l with
  | nil =>
    refine ⟨?_, ?_, ?_⟩ <;> simp [tagSplitChars, splitLines]
  | cons c rest ih =>
    obtain ⟨hd, tl, hEq⟩ : ∃ hd tl, splitLines (tagSplitChars rest) = hd :: tl := by
      match hE : splitLines (tagSplitChars rest) with
      | [] => exact absurd hE (splitLines_ne_nil _)
      | x :: xs => exact ⟨x, xs, rfl⟩
    obtain ⟨ihAll, ihHd1, ihHd2⟩ := ih
    rw [hEq] at ihAll ihHd1 ihHd2
    simp only [List.headI] at ihHd1 ihHd2
    by_cases h1 : c = '>'
    · subst h1
      have hsplit : splitLines (tagSplitChars ('>' :: rest)) =
          [ '>' ] :: splitLines (tagSplitChars rest) := by
        simp [tagSplitChars, splitLines]
      rw [hsplit, hEq]
      refine ⟨?_, ?_, ?_⟩
      · intro s hs
        simp only [List.mem_cons] at hs
        rcases hs with hs | hs
        · simp [hs]
        · exact ihAll s (List.mem_cons.mpr hs)
      · simp
      · simp
    · by_cases h2 : c = '<'
      · subst h2
        have hsplit : splitLines (tagSplitChars ('<' :: rest)) =
            [] :: ('<' :: hd) :: tl := by
          simp [tagSplitChars, splitLines, hEq]
        rw [hsplit]
        refine ⟨?_, ?_, ?_⟩
        · intro s hs
          simp only [List.mem_cons] at hs
          rcases hs with hs | hs | hs
          · simp [hs]
          · subst hs
            constructor
            · simpa using ihHd1
            · cases hd with
              | nil => simp
              | cons x xs =>
                intro a ha
                simp only [List.dropLast] at ha ⊢
                rcases (by simpa using ha) with ha | ha
                · subst ha
                  decide
                · exact ihHd2 a (by simpa using ha)
          · exact ihAll s (List.mem_cons_of_mem _ hs)
        · simp
        · simp
      · by_cases h3 : c = '\n'
        · subst h3
          have hsplit : splitLines (tagSplitChars ('\n' :: rest)) =
              [] :: splitLines (tagSplitChars rest) := by
            simp [tagSplitChars, splitLines]
          rw [hsplit, hEq]
          refine ⟨?_, ?_, ?_⟩
          · intro s hs
            simp only [List.mem_cons] at hs
            rcases hs with hs | hs
            · simp [hs]
            · exact ihAll s (List.mem_cons.mpr hs)
          · simp
          · simp
        · have hsplit : splitLines (tagSplitChars (c :: rest)) =
              (c :: hd) :: tl := by
            simp [tagSplitChars, splitLines, h1, h2, h3, hEq]
          rw [hsplit]
          refine ⟨?_, ?_, ?_⟩
          · intro s hs
            simp only [List.mem_cons] at hs
            rcases hs with hs | hs
            · subst hs
              constructor
              · simpa using ihHd1
              · cases hd with
                | nil => simp
                | cons x xs =>
                  intro a ha
                  rcases (by simpa [List.dropLast] using ha) with ha | ha
                  · subst ha
                    exact h1
                  · exact ihHd2 a (by simpa using ha)
            · exact ihAll s (List.mem_cons_of_mem _ hs)
          · simp only [List.headI]
            intro a ha
            rcases (by simpa using ha) with ha | ha
            · subst ha
              exact h2
            · exact ihHd1 a ha
          · simp only [List.headI]
            cases hd with
            | nil => simp
            | cons x xs =>
              intro a ha
              rcases (by simpa [List.dropLast] using ha) with ha | ha
              · subst ha
                exact h1
              · exact ihHd2 a (by simpa using ha)


/-! Helper lemmas about substring matching and the Schedule-state
roster scan. -/

theorem goContains_iff (line : List Char) (sub : String) :
    goContains line sub = true ↔ sub.toList <:+: line := by
  simp only [goContains, List.any_eq_true, List.mem_tails]
  constructor
  · rintro ⟨t, ht, hp⟩
    rw [List.isPrefixOf_iff_prefix] at hp
    exact hp.isInfix.trans ht.isInfix
  · intro h
    rw [List.infix_iff_prefix_suffix] at h
    obtain ⟨t, hp, hs⟩ := h
    exact ⟨t, hs, List.isPrefixOf_iff_prefix.mpr hp⟩

theorem selectAux_append (line : List Char) (m : Master) :
    ∀ (ms : List Master) (k : Nat) (acc : Option Nat),
    goScheduleSelectAux (ms ++ [m]) line k acc =
      if goContains line m.Colour then some (k + ms.length)
      else goScheduleSelectAux ms line k acc := by
  intro ms
  induction ms with
  | nil =>
    intro k acc
    by_cases h : goContains line m.Colour <;>
      simp [goScheduleSelectAux, h]
  | cons a rest ih =>
    intro k acc
    simp only [List.cons_append, goScheduleSelectAux, List.append_eq]
    rw [ih]
    by_cases h : goContains line m.Colour <;> simp [h, goScheduleSelectAux]
    omega

theorem goScheduleSelect_spec (line : List Char) : ∀ ms : List Master,
    (goScheduleSelect ms line = none →
      ∀ j, j < ms.length → goContains line ((ms.getD j emptyMaster).Colour) = false) ∧
    (∀ i, goScheduleSelect ms line = some i →
      i < ms.length ∧ goContains line ((ms.getD i emptyMaster).Colour) = true ∧
      ∀ j, i < j → j < ms.length → goContains line ((ms.getD j emptyMaster).Colour) = false) := by
  intro ms
  induction ms using List.reverseRecOn with
  | nil =>
    constructor
    · intro _ j hj
      simp at hj
    · intro i h
      simp [goScheduleSelect, goScheduleSelectAux] at h
  | append_singleton ms m ih =>
    obtain ⟨ihnone, ihsome⟩ := ih
    have happ := selectAux_append line m ms 0 none
    simp only [goScheduleSelect] at happ ihnone ihsome ⊢
    by_cases h : goContains line m.Colour
    · rw [happ, if_pos h]
      constructor
      · intro hnone
        exact absurd hnone (by simp)
      · intro i hi
        have hi' : i = ms.length := by
          simpa using hi.symm
        subst hi'
        refine ⟨by simp, ?_, ?_⟩
        · rw [List.getD_append_right _ _ _ _ (le_refl _)]
          simpa using h
        · intro j hij hj
          simp at hj
          omega
    · rw [happ, if_neg h]
      have hboolf : goContains line m.Colour = false := by
        simpa using h
      constructor
      · intro hnone j hj
        have hj' : j < ms.length ∨ j = ms.length := by
          simp at hj
          omega
        rcases hj' with hj' | hj'
        · rw [List.getD_append _ _ _ _ hj']
          exact ihnone hnone j hj'
        · subst hj'
          rw [List.getD_append_right _ _ _ _ (le_refl _)]
          simpa using hboolf
      · intro i hi
        obtain ⟨hlen, hcont, hrest⟩ := ihsome i hi
        refine ⟨by simp; omega, ?_, ?_⟩
        · rw [List.getD_append _ _ _ _ hlen]
          exact hcont
        · intro j hij hj
          have hj' : j < ms.length ∨ j = ms.length := by
            simp at hj
            omega
          rcases hj' with hj' | hj'
          · rw [List.getD_append _ _ _ _ hj']
            exact hrest j hij hj'
          · subst hj'
            rw [List.getD_append_right _ _ _ _ (le_refl _)]
            simpa using hboolf


/-! Helper lemmas about the state machine: pointer access, the Day and
ContactInfo transitions, and preservation of the `Current`-flag
invariant. -/

theorem getD_set_self {α : Type} (l : List α) (i : Nat) (a d : α) (h : i < l.length) :
    (l.set i a).getD i d = a := by
  rw [List.getD_eq_getElem _ _ (by simpa using h)]
  simp [List.getElem_set]

theorem getCur_setCur (m : Machine) (f : Master → Master) (h : curIdxOk m) :
    getCurMaster (setCurMaster m f) = f (getCurMaster m) := by
  obtain ⟨st, ms, sc, ix, mo⟩ := m
  cases ix with
  | none => rfl
  | some i =>
    simp only [curIdxOk] at h
    simp only [getCurMaster, setCurMaster]
    exact getD_set_self ms i _ emptyMaster h

theorem goStep_day_machine (now : GoDate) (m : Machine) (raw : List Char)
    (hst : m.st = PState.day) :
    goStep now m raw =
      { setCurMaster m (fun ma =>
          let ma1 :=
            if (now.Day = goAtoi (String.mk (goTrimSpace raw)) ∧
                monthsLookup (goToLower m.month) = now.Month : Bool)
            then { ma with Current := true,
                           Today := mkDuty now m.month (goAtoi (String.mk (goTrimSpace raw))) }
            else ma
          { ma1 with duty := ma1.duty ++
              [mkDuty now m.month (goAtoi (String.mk (goTrimSpace raw)))] })
        with st := PState.schedule } := by
  obtain ⟨st, ms, sc, ix, mo⟩ := m
  subst hst
  rfl

theorem goStep_day_duty (now : GoDate) (m : Machine) (raw : List Char)
    (hst : m.st = PState.day) (hix : curIdxOk m) :
    (getCurMaster (goStep now m raw)).duty =
      (getCurMaster m).duty ++
        [mkDuty now m.month (goAtoi (String.mk (goTrimSpace raw)))] := by
  rw [goStep_day_machine now m raw hst]
  have hcur : getCurMaster { setCurMaster m (fun ma =>
      let ma1 :=
        if (now.Day = goAtoi (String.mk (goTrimSpace raw)) ∧
            monthsLookup (goToLower m.month) = now.Month : Bool)
        then { ma with Current := true,
                       Today := mkDuty now m.month (goAtoi (String.mk (goTrimSpace raw))) }
        else ma
      { ma1 with duty := ma1.duty ++
          [mkDuty now m.month (goAtoi (String.mk (goTrimSpace raw)))] })
      with st := PState.schedule } = getCurMaster (setCurMaster m (fun ma =>
      let ma1 :=
        if (now.Day = goAtoi (String.mk (goTrimSpace raw)) ∧
            monthsLookup (goToLower m.month) = now.Month : Bool)
        then { ma with Current := true,
                       Today := mkDuty now m.month (goAtoi (String.mk (goTrimSpace raw))) }
        else ma
      { ma1 with duty := ma1.duty ++
          [mkDuty now m.month (goAtoi (String.mk (goTrimSpace raw)))] })) := by
    obtain ⟨st, ms, sc, ix, mo⟩ := m
    cases ix <;> rfl
  rw [hcur, getCur_setCur m _ hix]
  by_cases hnow : (now.Day = goAtoi (String.mk (goTrimSpace raw)) ∧
      monthsLookup (goToLower m.month) = now.Month : Bool) <;>
    simp [hnow]

theorem goStep_contactInfo_close (now : GoDate) (m : Machine) (raw : List Char)
    (hst : m.st = PState.contactInfo) (hline : goTrimSpace raw = "</tr>".toList) :
    goStep now m raw =
      { m with st := PState.contacts, masters := m.masters ++ [getCurMaster m] } := by
  obtain ⟨st, ms, sc, ix, mo⟩ := m
  subst hst
  simp only [goStep, hline]
  have he : findEmail [ '<', '/', 't', 'r', '>' ] = none := by decide
  have hs : findSlack [ '<', '/', 't', 'r', '>' ] = none := by decide
  simp [he, hs]

theorem PCur_emptyMaster (now : GoDate) : PCur now emptyMaster := by
  intro h
  simp [emptyMaster] at h

theorem PCur_getD (now : GoDate) (ms : List Master) (i : Nat)
    (hms : ∀ ma ∈ ms, PCur now ma) : PCur now (ms.getD i emptyMaster) := by
  by_cases hi : i < ms.length
  · rw [List.getD_eq_getElem _ _ hi]
    exact hms _ (List.getElem_mem _)
  · rw [List.getD_eq_default _ _ (by omega)]
    exact PCur_emptyMaster now

theorem PCur_getCur (now : GoDate) (m : Machine) (h : AllCur now m) :
    PCur now (getCurMaster m) := by
  obtain ⟨hsc, hms⟩ := h
  obtain ⟨st, ms, sc, ix, mo⟩ := m
  cases ix with
  | none => exact hsc
  | some i => exact PCur_getD now ms i hms

theorem setCur_AllCur (now : GoDate) (m : Machine) (f : Master → Master)
    (hAll : AllCur now m) (hf : ∀ ma, PCur now ma → PCur now (f ma)) :
    AllCur now (setCurMaster m f) := by
  obtain ⟨hsc, hms⟩ := hAll
  obtain ⟨st, ms, sc, ix, mo⟩ := m
  cases ix with
  | none => exact ⟨hf sc hsc, hms⟩
  | some i =>
    refine ⟨hsc, ?_⟩
    intro ma hma
    simp only [setCurMaster] at hma
    rcases List.mem_or_eq_of_mem_set hma with h | h
    · exact hms ma h
    · subst h
      exact hf _ (PCur_getD now ms i hms)

theorem goStep_AllCur (now : GoDate) (m : Machine) (raw : List Char)
    (hAll : AllCur now m) : AllCur now (goStep now m raw) := by
  obtain ⟨st, ms, sc, ix, mo⟩ := m
  cases st
  case contacts =>
    rcases hc : findColour (goTrimSpace raw) with _ | colour <;>
      simp only [goStep, hc] <;>
      by_cases ht : goTrimSpace raw = "</table>".toList
    · rw [if_pos ht]
      exact hAll
    · rw [if_neg ht]
      exact hAll
    · rw [if_pos ht]
      exact setCur_AllCur now _ _ hAll (fun ma hp h => hp h)
    · rw [if_neg ht]
      exact setCur_AllCur now _ _ hAll (fun ma hp h => hp h)
  case pname =>
    simp only [goStep]
    by_cases h0 : goTrimSpace raw = ([] : List Char)
    · rw [if_pos h0]
      exact hAll
    · rw [if_neg h0]
      by_cases h1 : (goTrimSpace raw).all (fun c => c ≠ '<' ∧ c ≠ '>') = true
      · rw [if_pos h1]
        exact setCur_AllCur now _ _ hAll (fun ma hp h => (Bool.false_ne_true h).elim)
      · rw [if_neg h1]
        exact hAll
  case contactInfo =>
    have happ : AllCur now
        ⟨PState.contacts,
          ms ++ [getCurMaster ⟨PState.contactInfo, ms, sc, ix, mo⟩],
          sc, ix, mo⟩ := by
      refine ⟨hAll.1, ?_⟩
      intro ma hma
      rcases List.mem_append.mp hma with h | h
      · exact hAll.2 ma h
      · rw [List.mem_singleton.mp h]
        exact PCur_getCur now _ hAll
    rcases he : findEmail (goTrimSpace raw) with _ | e <;>
      rcases hs : findSlack (goTrimSpace raw) with _ | fs <;>
      simp only [goStep, he, hs] <;>
      by_cases ht : goTrimSpace raw = "</tr>".toList
    · rw [if_pos ht]
      exact happ
    · rw [if_neg ht]
      exact hAll
    · rw [if_pos ht]
      exact setCur_AllCur now _ _ happ (fun ma hp h => hp h)
    · rw [if_neg ht]
      exact setCur_AllCur now _ _ hAll (fun ma hp h => hp h)
    · rw [if_pos ht]
      exact setCur_AllCur now _ _ happ (fun ma hp h => hp h)
    · rw [if_neg ht]
      exact setCur_AllCur now _ _ hAll (fun ma hp h => hp h)
    · rw [if_pos ht]
      exact setCur_AllCur now _ _
        (setCur_AllCur now _ _ happ (fun ma hp h => hp h)) (fun ma hp h => hp h)
    · rw [if_neg ht]
      exact setCur_AllCur now _ _
        (setCur_AllCur now _ _ hAll (fun ma hp h => hp h)) (fun ma hp h => hp h)
  case schedule =>
    simp only [goStep]
    rcases hm : findMonth (goTrimSpace raw) with _ | mo2 <;> simp only [hm] <;>
      rcases hsel : goScheduleSelect ms (goTrimSpace raw) with _ | i <;>
      simp only [hsel] <;>
      exact ⟨hAll.1, hAll.2⟩
  case day =>
    rw [goStep_day_machine now _ raw rfl]
    refine setCur_AllCur now _ _ hAll ?_
    intro ma hp
    by_cases hnow : (now.Day = goAtoi (String.mk (goTrimSpace raw)) ∧
        monthsLookup (goToLower mo) = now.Month : Bool)
    · simp only [hnow, if_true, if_pos]
      intro _
      have hnow2 : now.Day = goAtoi (String.mk (goTrimSpace raw)) ∧
          monthsLookup (goToLower mo) = now.Month := by
        simpa using hnow
      refine ⟨hnow2.1.symm, hnow2.2, ?_⟩
      simp [mkDuty]
    · simp only [hnow, if_false, if_neg]
      intro h
      obtain ⟨d1, d2, dm⟩ := hp h
      exact ⟨d1, d2, List.mem_append_left _ dm⟩

theorem foldl_AllCur (now : GoDate) :
    ∀ (lines : List (List Char)) (m : Machine), AllCur now m →
      AllCur now (lines.foldl (goStep now) m) := by
  intro lines
  induction lines with
  | nil => intro m h; exact h
  | cons l rest ih =>
    intro m h
    exact ih (goStep now m l) (goStep_AllCur now m l h)

theorem initMachine_AllCur (now : GoDate) : AllCur now initMachine := by
  refine ⟨PCur_emptyMaster now, ?_⟩
  intro ma hma
  simp [initMachine] at hma

theorem parse_PCur (now : GoDate) (page : String) :
    ∀ ma ∈ (parseMastersSchedule now page).1, PCur now ma := by
  intro ma hma
  have h := foldl_AllCur now (goSplitBody page) initMachine (initMachine_AllCur now)
  exact h.2 ma hma


/-! Helper lemmas about `time.Date` normalisation and formatting. -/

theorem goNormYM_id (y mo : Int) (h1 : 1 ≤ mo) (h2 : mo ≤ 12) :
    goNormYM y mo = (y, mo) := by
  simp only [goNormYM, Prod.mk.injEq]
  constructor <;> omega

theorem goNormYM_zero (y : Int) : goNormYM y 0 = (y - 1, 12) := by
  simp only [goNormYM, Prod.mk.injEq]
  constructor <;> omega

theorem goTimeDate_id (y mo d : Int) (h1 : 1 ≤ mo) (h2 : mo ≤ 12) (h3 : 1 ≤ d)
    (h4 : d ≤ goDaysInMonth y mo) :
    goTimeDate y mo d = (y, mo, d) := by
  simp only [goTimeDate, goNormYM_id y mo h1 h2]
  exact civil_roundtrip y mo d h1 h2 h3 h4

theorem goTimeDateString_id (y mo d : Int) (h1 : 1 ≤ mo) (h2 : mo ≤ 12) (h3 : 1 ≤ d)
    (h4 : d ≤ goDaysInMonth y mo) :
    goTimeDateString y mo d = pad4 y ++ "-" ++ pad2 mo ++ "-" ++ pad2 d := by
  simp only [goTimeDateString, goTimeDate_id y mo d h1 h2 h3 h4]

theorem goTimeDate_month0 (y d : Int) (h3 : 1 ≤ d) (h4 : d ≤ 31) :
    goTimeDate y 0 d = (y - 1, 12, d) := by
  simp only [goTimeDate, goNormYM_zero]
  refine civil_roundtrip (y - 1) 12 d (by norm_num) (by norm_num) h3 ?_
  simp only [goDaysInMonth]
  norm_num
  exact h4

theorem goTimeDate_month0_day0 (y : Int) :
    goTimeDate y 0 0 = (y - 1, 11, 30) := by
  simp only [goTimeDate, goNormYM_zero]
  have heq : daysFromCivil (y - 1) 12 0 = daysFromCivil (y - 1) 11 30 := by
    simp only [daysFromCivil]
    split_ifs <;> omega
  rw [heq]
  refine civil_roundtrip (y - 1) 11 30 (by norm_num) (by norm_num) (by norm_num) ?_
  simp only [goDaysInMonth]
  norm_num


/-! Claim theorems. -/

/-- C5: for every input string the parse function reports no error (the
error result of `parseMastersSchedule` is always `nil`); an input with
none of the expected patterns yields an empty roster, and a day cell
whose text does not parse as an integer is still recorded with day 0. -/
theorem c5_parse_never_errors :
    (∀ (now : GoDate) (page : String), (parseMastersSchedule now page).2 = none) ∧
    (parseMastersSchedule ⟨2024, 1, 15⟩ "hello world").1 = [] ∧
    (let ms := (parseMastersSchedule ⟨2024, 1, 15⟩
        "<td rgb(1,1,1)>A</tr></table><td rgb(1,1,1)>x").1
     (ms.getD 0 emptyMaster).duty.length = 1 ∧
     ((ms.getD 0 emptyMaster).duty.getD 0 emptyDuty).Day = 0) := by
  refine ⟨fun now page => rfl, by decide, by decide⟩

/-- C7: parsing is deterministic and stateless across invocations: for
a fixed input string and reference date, two invocations of
`parseMastersSchedule` produce element-wise identical roster lists. -/
theorem c7_parse_deterministic (now : GoDate) (page : String) :
    List.Forall₂ (fun a b => a = b)
      (parseMastersSchedule now page).1 (parseMastersSchedule now page).1 := by
  exact List.forall₂_same.mpr (fun x _ => rfl)

/-- C8: the tokenizer is a pure, always-succeeding text transform equal
to inserting a line break before every `<` and after every `>` and then
splitting on line breaks; joining the produced lines with line breaks
restores the delimited text, and in every produced line `<` occurs only
as the first character and `>` only as the last. -/
theorem c8_tokenizer_spec (page : String) :
    goSplitBody page = specSplitBody page ∧
    List.intercalate [ '\n' ] (goSplitBody page) = tagSplitChars page.toList ∧
    ∀ s ∈ goSplitBody page,
      (∀ c ∈ s.drop 1, c ≠ '<') ∧ (∀ c ∈ s.dropLast, c ≠ '>') := by
  refine ⟨?_, ?_, ?_⟩
  · simp only [goSplitBody, specSplitBody, tagSplit_eq_specInsert]
  · simp only [goSplitBody, splitLines_intercalate]
  · exact fun s hs => (tagSplit_boundary page.toList).1 s hs

/-- C8 witness: the tokenizer theorem applied to the page `a<b>c`,
whose middle produced line is `<b>`. -/
theorem c8_tokenizer_spec_witness :
    goSplitBody "a<b>c" = specSplitBody "a<b>c" ∧
    List.intercalate [ '\n' ] (goSplitBody "a<b>c") = tagSplitChars "a<b>c".toList ∧
    (('b' : Char) ≠ '<') :=
  ⟨(c8_tokenizer_spec "a<b>c").1, (c8_tokenizer_spec "a<b>c").2.1,
    ((c8_tokenizer_spec "a<b>c").2.2 ("<b>".toList) (by decide)).1 'b' (by decide)⟩

/-- C1: counterexample.  Roster colours `highlight-a` and `highlight-ab`
are both contained in the calendar cell line `<td highlight-ab>`, yet
the duty record is attributed to the second (later-stored) entry and
not to the first, contradicting the claim that the first matching
roster entry becomes the active person. -/
theorem c1_first_match_counterexample :
    (let ms := (parseMastersSchedule ⟨2024, 1, 15⟩
        "<td highlight-a>A</tr><td highlight-ab>B</tr></table><td highlight-ab>5").1
     ms.length = 2 ∧
     (ms.getD 0 emptyMaster).Colour = "highlight-a" ∧
     (ms.getD 1 emptyMaster).Colour = "highlight-ab" ∧
     goContains ("<td highlight-ab>".toList) "highlight-a" = true ∧
     goContains ("<td highlight-ab>".toList) "highlight-ab" = true ∧
     (ms.getD 0 emptyMaster).duty = [] ∧
     (ms.getD 1 emptyMaster).duty ≠ []) := by
  decide

/-- C1 (amended): in the Schedule state, for a trimmed line containing
at least one roster colour, the entry that becomes the active person is
the LAST roster entry, in stored roster order, whose colour token is
contained in the line — the scan loop has no break and each hit
overwrites the previous one; when no colour is contained, no entry is
selected. -/
theorem c1_last_match_wins (now : GoDate) (mach : Machine) (raw : List Char)
    (hst : mach.st = PState.schedule) :
    (goScheduleSelect mach.masters (goTrimSpace raw) = none →
      ∀ j, j < mach.masters.length →
        goContains (goTrimSpace raw) ((mach.masters.getD j emptyMaster).Colour) = false) ∧
    ∀ i, goScheduleSelect mach.masters (goTrimSpace raw) = some i →
      (goStep now mach raw).st = PState.day ∧
      (goStep now mach raw).idx = some i ∧
      i < mach.masters.length ∧
      goContains (goTrimSpace raw) ((mach.masters.getD i emptyMaster).Colour) = true ∧
      ∀ j, i < j → j < mach.masters.length →
        goContains (goTrimSpace raw) ((mach.masters.getD j emptyMaster).Colour) = false := by
  obtain ⟨spec_none, spec_some⟩ := goScheduleSelect_spec (goTrimSpace raw) mach.masters
  refine ⟨spec_none, ?_⟩
  intro i hsel
  obtain ⟨hlen, hcont, hrest⟩ := spec_some i hsel
  obtain ⟨st, ms, sc, ix, mo⟩ := mach
  subst hst
  refine ⟨?_, ?_, hlen, hcont, hrest⟩
  · simp only [goStep]
    rcases hm : findMonth (goTrimSpace raw) with _ | mo2 <;>
      simp only [hm] <;> rw [hsel]
  · simp only [goStep]
    rcases hm : findMonth (goTrimSpace raw) with _ | mo2 <;>
      simp only [hm] <;> rw [hsel]

/-- C1 witness: the amended theorem applied to a Schedule-state machine
with roster colours `highlight-a`, `highlight-ab` and the line
`<td highlight-ab>`: entry 1 (the last match) is selected as the active
person and the machine moves to the Day state. -/
theorem c1_last_match_wins_witness :
    (goStep ⟨2024, 1, 15⟩
        ⟨PState.schedule,
          [{ emptyMaster with Colour := "highlight-a" },
            { emptyMaster with Colour := "highlight-ab" }], emptyMaster, none, ""⟩
        ("<td highlight-ab>".toList)).st = PState.day ∧
    (goStep ⟨2024, 1, 15⟩
        ⟨PState.schedule,
          [{ emptyMaster with Colour := "highlight-a" },
            { emptyMaster with Colour := "highlight-ab" }], emptyMaster, none, ""⟩
        ("<td highlight-ab>".toList)).idx = some 1 :=
  ⟨((c1_last_match_wins ⟨2024, 1, 15⟩
      ⟨PState.schedule,
        [{ emptyMaster with Colour := "highlight-a" },
          { emptyMaster with Colour := "highlight-ab" }], emptyMaster, none, ""⟩
      ("<td highlight-ab>".toList) rfl).2 1 (by decide)).1,
    ((c1_last_match_wins ⟨2024, 1, 15⟩
      ⟨PState.schedule,
        [{ emptyMaster with Colour := "highlight-a" },
          { emptyMaster with Colour := "highlight-ab" }], emptyMaster, none, ""⟩
      ("<td highlight-ab>".toList) rfl).2 1 (by decide)).2.1⟩

/-- C2: counterexample.  The second roster row (colour `rgb(2,2,2)`,
name `Bob`) provides no e-mail of its own, yet the parsed entry carries
the e-mail `al@x` of the previously appended entry: the record under
construction is not blank after a row-close marker. -/
theorem c2_blank_entry_counterexample :
    (let ms := (parseMastersSchedule ⟨2024, 1, 15⟩
        "<td rgb(1,1,1)>Alice<i>al@x</tr><td rgb(2,2,2)>Bob</tr>").1
     ms.length = 2 ∧
     (ms.getD 0 emptyMaster).Name = "Alice" ∧
     (ms.getD 0 emptyMaster).Email = "al@x" ∧
     (ms.getD 1 emptyMaster).Name = "Bob" ∧
     (ms.getD 1 emptyMaster).Email = "al@x" ∧
     (ms.getD 1 emptyMaster).Email ≠ "") := by
  decide

/-- C2 (amended): on a row-close marker in the ContactInfo state the
entry under construction is appended to the roster, but no new blank
entry begins: the machine keeps the same record under construction, so
its e-mail and chat-handle fields persist into the next roster row
unless that row overwrites them. -/
theorem c2_append_without_reset (now : GoDate) (mach : Machine) (raw : List Char)
    (hst : mach.st = PState.contactInfo)
    (hline : goTrimSpace raw = "</tr>".toList) :
    goStep now mach raw =
      { mach with st := PState.contacts,
                  masters := mach.masters ++ [getCurMaster mach] } ∧
    (goStep now mach raw).scratch.Email = mach.scratch.Email ∧
    (goStep now mach raw).scratch.Slack = mach.scratch.Slack ∧
    (goStep now mach raw).scratch.SlackShort = mach.scratch.SlackShort := by
  have h := goStep_contactInfo_close now mach raw hst hline
  rw [h]
  exact ⟨rfl, rfl, rfl, rfl⟩

/-- C2 witness: the amended theorem applied to a ContactInfo-state
machine whose record under construction already carries the e-mail
`al@x`: after the row close, the e-mail persists in the record under
construction. -/
theorem c2_append_without_reset_witness :
    goStep ⟨2024, 1, 15⟩
        ⟨PState.contactInfo, [], { emptyMaster with Name := "Alice", Email := "al@x" },
          none, ""⟩ ("</tr>".toList) =
      { st := PState.contacts,
        masters := [{ emptyMaster with Name := "Alice", Email := "al@x" }],
        scratch := { emptyMaster with Name := "Alice", Email := "al@x" },
        idx := none, month := "" } ∧
    (goStep ⟨2024, 1, 15⟩
        ⟨PState.contactInfo, [], { emptyMaster with Name := "Alice", Email := "al@x" },
          none, ""⟩ ("</tr>".toList)).scratch.Email = "al@x" := by
  have h := c2_append_without_reset ⟨2024, 1, 15⟩
    ⟨PState.contactInfo, [], { emptyMaster with Name := "Alice", Email := "al@x" },
      none, ""⟩ ("</tr>".toList) rfl (by decide)
  exact ⟨h.1, by rw [h.2.1]⟩

/-- C3: counterexample.  The reference date 2024-01-15 appears as a
day cell under two different roster colours, so both roster entries end
the parse with `Current = true`: "at most one DutyPerson has
Current = true" fails on this input. -/
theorem c3_at_most_one_counterexample :
    (let ms := (parseMastersSchedule ⟨2024, 1, 15⟩
        "<td rgb(1,1,1)>A</tr><td rgb(2,2,2)>B</tr></table>январь, 2024<td rgb(1,1,1)>15<td rgb(2,2,2)>15").1
     ms.length = 2 ∧
     (ms.getD 0 emptyMaster).Current = true ∧
     (ms.getD 1 emptyMaster).Current = true) := by
  decide

/-- C3 (amended): `Current` is set true for an entry only when some
calendar day cell attributed to that entry has a parsed day equal to
the reference date's day and a resolved month equal to the reference
date's month; several entries may hold the flag simultaneously when
matching cells exist under several colours. -/
theorem c3_current_only_on_match (now : GoDate) (page : String) :
    ∀ ma ∈ (parseMastersSchedule now page).1, ma.Current = true →
      ∃ rec0 ∈ ma.duty, rec0.Day = now.Day ∧
        monthsLookup (goToLower rec0.Month) = now.Month := by
  intro ma hma hcur
  obtain ⟨d1, d2, dm⟩ := parse_PCur now page ma hma hcur
  exact ⟨ma.Today, dm, d1, d2⟩

/-- C3 witness: the amended theorem applied to a parse whose single
roster entry is on duty on the reference date 2024-01-15. -/
theorem c3_current_only_on_match_witness :
    ∃ rec0 ∈ ((parseMastersSchedule ⟨2024, 1, 15⟩
        "<td rgb(1,1,1)>A</tr></table>январь, 2024<td rgb(1,1,1)>15").1.getD 0
          emptyMaster).duty,
      rec0.Day = (⟨2024, 1, 15⟩ : GoDate).Day ∧
      monthsLookup (goToLower rec0.Month) = (⟨2024, 1, 15⟩ : GoDate).Month :=
  c3_current_only_on_match ⟨2024, 1, 15⟩
    "<td rgb(1,1,1)>A</tr></table>январь, 2024<td rgb(1,1,1)>15"
    ((parseMastersSchedule ⟨2024, 1, 15⟩
        "<td rgb(1,1,1)>A</tr></table>январь, 2024<td rgb(1,1,1)>15").1.getD 0
          emptyMaster)
    (by decide) (by decide)

/-- C4: counterexample.  A day cell whose text is `32` parses to a duty
record with day number 32, outside the claimed range 0 or 1..31. -/
theorem c4_day_range_counterexample :
    (let r0 := (((parseMastersSchedule ⟨2024, 1, 15⟩
        "<td rgb(1,1,1)>A</tr></table><td rgb(1,1,1)>32").1.getD 0
          emptyMaster).duty.getD 0 emptyDuty)
     r0.Day = 32 ∧ ¬ (r0.Day = 0 ∨ (1 ≤ r0.Day ∧ r0.Day ≤ 31))) := by
  decide

/-- C4 (amended): the day number of the duty record produced by the Day
state is exactly the `strconv.Atoi` value of the trimmed cell text —
the integer value whenever the text is an optionally signed decimal
number (so values such as 32 or -5 are recorded as is), and 0
otherwise. -/
theorem c4_day_is_atoi (now : GoDate) (mach : Machine) (raw : List Char)
    (hst : mach.st = PState.day) (hix : curIdxOk mach) :
    (getCurMaster (goStep now mach raw)).duty =
      (getCurMaster mach).duty ++
        [mkDuty now mach.month (goAtoi (String.mk (goTrimSpace raw)))] ∧
    (mkDuty now mach.month (goAtoi (String.mk (goTrimSpace raw)))).Day =
      goAtoi (String.mk (goTrimSpace raw)) ∧
    goAtoi "32" = 32 ∧ goAtoi "-5" = -5 ∧ goAtoi "x" = 0 ∧ goAtoi "" = 0 :=
  ⟨goStep_day_duty now mach raw hst hix, rfl, by decide, by decide, by decide, by decide⟩

/-- C4 witness: the amended theorem applied to a Day-state machine
reading the cell text `32`. -/
theorem c4_day_is_atoi_witness :
    (getCurMaster (goStep ⟨2024, 1, 15⟩
        ⟨PState.day, [{ emptyMaster with Colour := "rgb(1,1,1)" }], emptyMaster,
          some 0, ""⟩ ("32".toList))).duty =
      (getCurMaster
        (⟨PState.day, [{ emptyMaster with Colour := "rgb(1,1,1)" }], emptyMaster,
          some 0, ""⟩ : Machine)).duty ++
        [mkDuty ⟨2024, 1, 15⟩ "" (goAtoi (String.mk (goTrimSpace ("32".toList))))] ∧
    goAtoi "32" = 32 :=
  ⟨(c4_day_is_atoi ⟨2024, 1, 15⟩
      ⟨PState.day, [{ emptyMaster with Colour := "rgb(1,1,1)" }], emptyMaster,
        some 0, ""⟩ ("32".toList) rfl (by simp [curIdxOk])).1,
    (c4_day_is_atoi ⟨2024, 1, 15⟩
      ⟨PState.day, [{ emptyMaster with Colour := "rgb(1,1,1)" }], emptyMaster,
        some 0, ""⟩ ("32".toList) rfl (by simp [curIdxOk])).2.2.1⟩

/-- C6: counterexample.  With reference date 2024-01-15, a day cell
with unparseable text (day 0) under the month header `январь, 2024` is
normalized to `2023-12-31`: the year component of the rendered date is
not the current system year, so "the current year unconditionally — for
every parsed day number" fails. -/
theorem c6_current_year_counterexample :
    (let r0 := (((parseMastersSchedule ⟨2024, 1, 15⟩
        "<td rgb(1,1,1)>A</tr></table>январь, 2024<td rgb(1,1,1)>z").1.getD 0
          emptyMaster).duty.getD 0 emptyDuty)
     r0.Month = "январь" ∧ r0.Day = 0 ∧ r0.Date = "2023-12-31" ∧
     pad4 (2024 : Int) = "2024" ∧
     r0.Date.toList.take 4 ≠ (pad4 (2024 : Int)).toList) := by
  decide

/-- C6 (amended): every duty record appended by the Day state carries
the date string built by `time.Date` from (reference year, resolved
month number, parsed day) rendered as `YYYY-MM-DD`; whenever the
resolved month is 1..12 and the day lies within that month, the
normalization is the identity, so the rendered year component is the
reference (current) year — while day 0, out-of-range days or month
number 0 roll the date into an adjacent month or year. -/
theorem c6_date_uses_current_year (now : GoDate) (mach : Machine) (raw : List Char)
    (hst : mach.st = PState.day) (hix : curIdxOk mach) :
    (getCurMaster (goStep now mach raw)).duty =
      (getCurMaster mach).duty ++
        [⟨mach.month, goAtoi (String.mk (goTrimSpace raw)),
          goTimeDateString now.Year (monthsLookup (goToLower mach.month))
            (goAtoi (String.mk (goTrimSpace raw)))⟩] ∧
    (∀ mo d : Int, 1 ≤ mo → mo ≤ 12 → 1 ≤ d → d ≤ goDaysInMonth now.Year mo →
      goTimeDateString now.Year mo d =
        pad4 now.Year ++ "-" ++ pad2 mo ++ "-" ++ pad2 d) := by
  constructor
  · exact goStep_day_duty now mach raw hst hix
  · intro mo d h1 h2 h3 h4
    exact goTimeDateString_id now.Year mo d h1 h2 h3 h4

/-- C6 witness: the amended theorem applied to a Day-state machine with
month `январь` and the cell text `15` under reference year 2024: the
rendered date is `2024-01-15`, whose year component is the reference
year. -/
theorem c6_date_uses_current_year_witness :
    (getCurMaster (goStep ⟨2024, 1, 20⟩
        ⟨PState.day, [{ emptyMaster with Colour := "rgb(1,1,1)" }], emptyMaster,
          some 0, "январь"⟩ ("15".toList))).duty =
      (getCurMaster
        (⟨PState.day, [{ emptyMaster with Colour := "rgb(1,1,1)" }], emptyMaster,
          some 0, "январь"⟩ : Machine)).duty ++
        [⟨"январь", goAtoi (String.mk (goTrimSpace ("15".toList))),
          goTimeDateString 2024 (monthsLookup (goToLower "январь"))
            (goAtoi (String.mk (goTrimSpace ("15".toList))))⟩] ∧
    goTimeDateString 2024 1 15 = pad4 2024 ++ "-" ++ pad2 1 ++ "-" ++ pad2 15 :=
  ⟨(c6_date_uses_current_year ⟨2024, 1, 20⟩
      ⟨PState.day, [{ emptyMaster with Colour := "rgb(1,1,1)" }], emptyMaster,
        some 0, "январь"⟩ ("15".toList) rfl (by simp [curIdxOk])).1,
    (c6_date_uses_current_year ⟨2024, 1, 20⟩
      ⟨PState.day, [{ emptyMaster with Colour := "rgb(1,1,1)" }], emptyMaster,
        some 0, "январь"⟩ ("15".toList) rfl (by simp [curIdxOk])).2 1 15
      (by decide) (by decide) (by decide) (by decide)⟩

theorem masterJSON_chunks (ma : Master) :
    (masterJSON ma).toList =
      "\x7b".toList ++ "\"Current\":".toList ++
        (if ma.Current then "true" else "false").toList ++ ",".toList ++
      "\"Today\":".toList ++ (dutyJSON ma.Today).toList ++ ",".toList ++
      "\"Name\":".toList ++ (jsonString ma.Name).toList ++ ",".toList ++
      "\"Email\":".toList ++ (jsonString ma.Email).toList ++ ",".toList ++
      "\"Slack\":".toList ++ (jsonString ma.Slack).toList ++ ",".toList ++
      "\"SlackShort\":".toList ++ (jsonString ma.SlackShort).toList ++ ",".toList ++
      "\"Colour\":".toList ++ (jsonString ma.Colour).toList ++ "\x7d".toList := by
  simp only [masterJSON, String.toList, String.data_append, List.append_assoc]

/-- C9: counterexample.  A parse-result person with a non-empty duty
list has exactly the same JSON serialization as the same person with
the duty list emptied: the encoded document cannot contain the ordered
sequence of duty dates, because the Go field `duty` is unexported and
`encoding/json` skips it. -/
theorem c9_json_duty_counterexample :
    (let ma := ((parseMastersSchedule ⟨2024, 1, 15⟩
        "<td rgb(1,1,1)>Alice</tr></table><td rgb(1,1,1)>7").1.getD 0 emptyMaster)
     ma.duty ≠ [] ∧
     masterJSON ma = masterJSON { ma with duty := [] }) := by
  decide

/-- C9 (amended): the JSON serialization of a DutyPerson record
contains, field for field, every EXPORTED record attribute (`Current`,
`Today` with its `Month`/`Day`/`Date`, `Name`, `Email`, `Slack`,
`SlackShort`, `Colour`), but omits the unexported duty-date list:
serializations of records differing only in their duty list are
identical. -/
theorem c9_json_exported_fields (ma : Master) :
    (∀ dl : List Duty, masterJSON { ma with duty := dl } = masterJSON ma) ∧
    ∀ key ∈ ["\"Current\":", "\"Today\":", "\"Name\":", "\"Email\":",
        "\"Slack\":", "\"SlackShort\":", "\"Colour\":"],
      key.toList <:+: (masterJSON ma).toList := by
  constructor
  · intro dl
    rfl
  · intro key hkey
    fin_cases hkey
    · exact ⟨"\x7b".toList,
        (if ma.Current then "true" else "false").toList ++ ",".toList ++
          "\"Today\":".toList ++ (dutyJSON ma.Today).toList ++ ",".toList ++
          "\"Name\":".toList ++ (jsonString ma.Name).toList ++ ",".toList ++
          "\"Email\":".toList ++ (jsonString ma.Email).toList ++ ",".toList ++
          "\"Slack\":".toList ++ (jsonString ma.Slack).toList ++ ",".toList ++
          "\"SlackShort\":".toList ++ (jsonString ma.SlackShort).toList ++ ",".toList ++
          "\"Colour\":".toList ++ (jsonString ma.Colour).toList ++ "\x7d".toList,
        by rw [masterJSON_chunks]; simp [List.append_assoc]⟩
    · exact ⟨"\x7b".toList ++ "\"Current\":".toList ++
          (if ma.Current then "true" else "false").toList ++ ",".toList,
        (dutyJSON ma.Today).toList ++ ",".toList ++
          "\"Name\":".toList ++ (jsonString ma.Name).toList ++ ",".toList ++
          "\"Email\":".toList ++ (jsonString ma.Email).toList ++ ",".toList ++
          "\"Slack\":".toList ++ (jsonString ma.Slack).toList ++ ",".toList ++
          "\"SlackShort\":".toList ++ (jsonString ma.SlackShort).toList ++ ",".toList ++
          "\"Colour\":".toList ++ (jsonString ma.Colour).toList ++ "\x7d".toList,
        by rw [masterJSON_chunks]; simp [List.append_assoc]⟩
    · exact ⟨"\x7b".toList ++ "\"Current\":".toList ++
          (if ma.Current then "true" else "false").toList ++ ",".toList ++
          "\"Today\":".toList ++ (dutyJSON ma.Today).toList ++ ",".toList,
        (jsonString ma.Name).toList ++ ",".toList ++
          "\"Email\":".toList ++ (jsonString ma.Email).toList ++ ",".toList ++
          "\"Slack\":".toList ++ (jsonString ma.Slack).toList ++ ",".toList ++
          "\"SlackShort\":".toList ++ (jsonString ma.SlackShort).toList ++ ",".toList ++
          "\"Colour\":".toList ++ (jsonString ma.Colour).toList ++ "\x7d".toList,
        by rw [masterJSON_chunks]; simp [List.append_assoc]⟩
    · exact ⟨"\x7b".toList ++ "\"Current\":".toList ++
          (if ma.Current then "true" else "false").toList ++ ",".toList ++
          "\"Today\":".toList ++ (dutyJSON ma.Today).toList ++ ",".toList ++
          "\"Name\":".toList ++ (jsonString ma.Name).toList ++ ",".toList,
        (jsonString ma.Email).toList ++ ",".toList ++
          "\"Slack\":".toList ++ (jsonString ma.Slack).toList ++ ",".toList ++
          "\"SlackShort\":".toList ++ (jsonString ma.SlackShort).toList ++ ",".toList ++
          "\"Colour\":".toList ++ (jsonString ma.Colour).toList ++ "\x7d".toList,
        by rw [masterJSON_chunks]; simp [List.append_assoc]⟩
    · exact ⟨"\x7b".toList ++ "\"Current\":".toList ++
          (if ma.Current then "true" else "false").toList ++ ",".toList ++
          "\"Today\":".toList ++ (dutyJSON ma.Today).toList ++ ",".toList ++
          "\"Name\":".toList ++ (jsonString ma.Name).toList ++ ",".toList ++
          "\"Email\":".toList ++ (jsonString ma.Email).toList ++ ",".toList,
        (jsonString ma.Slack).toList ++ ",".toList ++
          "\"SlackShort\":".toList ++ (jsonString ma.SlackShort).toList ++ ",".toList ++
          "\"Colour\":".toList ++ (jsonString ma.Colour).toList ++ "\x7d".toList,
        by rw [masterJSON_chunks]; simp [List.append_assoc]⟩
    · exact ⟨"\x7b".toList ++ "\"Current\":".toList ++
          (if ma.Current then "true" else "false").toList ++ ",".toList ++
          "\"Today\":".toList ++ (dutyJSON ma.Today).toList ++ ",".toList ++
          "\"Name\":".toList ++ (jsonString ma.Name).toList ++ ",".toList ++
          "\"Email\":".toList ++ (jsonString ma.Email).toList ++ ",".toList ++
          "\"Slack\":".toList ++ (jsonString ma.Slack).toList ++ ",".toList,
        (jsonString ma.SlackShort).toList ++ ",".toList ++
          "\"Colour\":".toList ++ (jsonString ma.Colour).toList ++ "\x7d".toList,
        by rw [masterJSON_chunks]; simp [List.append_assoc]⟩
    · exact ⟨"\x7b".toList ++ "\"Current\":".toList ++
          (if ma.Current then "true" else "false").toList ++ ",".toList ++
          "\"Today\":".toList ++ (dutyJSON ma.Today).toList ++ ",".toList ++
          "\"Name\":".toList ++ (jsonString ma.Name).toList ++ ",".toList ++
          "\"Email\":".toList ++ (jsonString ma.Email).toList ++ ",".toList ++
          "\"Slack\":".toList ++ (jsonString ma.Slack).toList ++ ",".toList ++
          "\"SlackShort\":".toList ++ (jsonString ma.SlackShort).toList ++ ",".toList,
        (jsonString ma.Colour).toList ++ "\x7d".toList,
        by rw [masterJSON_chunks]; simp [List.append_assoc]⟩

/-- C9 witness: the amended theorem applied to the empty record: its
serialization is unchanged by the duty list and contains the `Colour`
key. -/
theorem c9_json_exported_fields_witness :
    masterJSON { emptyMaster with duty := [emptyDuty] } = masterJSON emptyMaster ∧
    ("\"Colour\":").toList <:+: (masterJSON emptyMaster).toList :=
  ⟨(c9_json_exported_fields emptyMaster).1 [emptyDuty],
    (c9_json_exported_fields emptyMaster).2 "\"Colour\":" (by decide)⟩

/-- C10: counterexample.  With no month header seen, a day cell with
unparseable text (day 0) yields a record with empty month name whose
normalized date is `2023-11-30` under reference year 2024: a day in
NOVEMBER of the preceding year, not in December as claimed. -/
theorem c10_december_counterexample :
    (let r0 := (((parseMastersSchedule ⟨2024, 1, 15⟩
        "<td rgb(1,1,1)>A</tr></table><td rgb(1,1,1)>q").1.getD 0
          emptyMaster).duty.getD 0 emptyDuty)
     r0.Month = "" ∧ r0.Day = 0 ∧ r0.Date = "2023-11-30" ∧
     (r0.Date.toList.drop 5).take 2 ≠ "12".toList) := by
  decide

/-- C10 (amended): a day cell attributed before any month header leaves
an empty month name, which resolves to month number 0; `time.Date`
normalizes month 0 to December of the preceding year, so parsed days
1..31 yield a day in December of the year preceding the reference year,
but day 0 (an unparseable cell) backs up one further day to
November 30 of the preceding year. -/
theorem c10_no_header_dates (now : GoDate) (mach : Machine) (raw : List Char)
    (hst : mach.st = PState.day) (hix : curIdxOk mach)
    (hmo : mach.month = "") :
    (getCurMaster (goStep now mach raw)).duty =
      (getCurMaster mach).duty ++
        [⟨"", goAtoi (String.mk (goTrimSpace raw)),
          goTimeDateString now.Year 0 (goAtoi (String.mk (goTrimSpace raw)))⟩] ∧
    monthsLookup (goToLower "") = 0 ∧
    (∀ d : Int, 1 ≤ d → d ≤ 31 → goTimeDate now.Year 0 d = (now.Year - 1, 12, d)) ∧
    goTimeDate now.Year 0 0 = (now.Year - 1, 11, 30) := by
  refine ⟨?_, rfl, fun d h1 h2 => goTimeDate_month0 now.Year d h1 h2,
    goTimeDate_month0_day0 now.Year⟩
  have h := goStep_day_duty now mach raw hst hix
  rw [hmo] at h
  exact h

/-- C10 witness: the amended theorem applied to a Day-state machine
with no month seen and the cell text `7` under reference year 2024:
the normalized date lands on December 7 of 2023. -/
theorem c10_no_header_dates_witness :
    (getCurMaster (goStep ⟨2024, 1, 15⟩
        ⟨PState.day, [{ emptyMaster with Colour := "rgb(1,1,1)" }], emptyMaster,
          some 0, ""⟩ ("7".toList))).duty =
      (getCurMaster
        (⟨PState.day, [{ emptyMaster with Colour := "rgb(1,1,1)" }], emptyMaster,
          some 0, ""⟩ : Machine)).duty ++
        [⟨"", goAtoi (String.mk (goTrimSpace ("7".toList))),
          goTimeDateString 2024 0 (goAtoi (String.mk (goTrimSpace ("7".toList))))⟩] ∧
    goTimeDate 2024 0 7 = (2023, 12, 7) :=
  ⟨(c10_no_header_dates ⟨2024, 1, 15⟩
      ⟨PState.day, [{ emptyMaster with Colour := "rgb(1,1,1)" }], emptyMaster,
        some 0, ""⟩ ("7".toList) rfl (by simp [curIdxOk]) rfl).1,
    (c10_no_header_dates ⟨2024, 1, 15⟩
      ⟨PState.day, [{ emptyMaster with Colour := "rgb(1,1,1)" }], emptyMaster,
        some 0, ""⟩ ("7".toList) rfl (by simp [curIdxOk]) rfl).2.2.1 7
      (by decide) (by decide)⟩
